import Mathlib

/-!
# Verification of the lama-cleaner video watermark removal tool

Shallow embedding of the worker-pool manager (`src/app/lama_manager.py`),
pipeline orchestrator (`src/gui_app/app/pipeline.py`), data model
(`src/app/models.py`, `src/gui_app/app/models.py`) and the batch script
(`src/scripts/batch.py`), together with theorems settling the behavioural
claims about port-conflict resolution, frame classification, sharding,
error aggregation, progress reporting and instance scaling.
-/

namespace VWR

/-- Result of a Python call that either returns a value or raises. -/
inductive PyResult (α : Type) where
  | ok (value : α)
  | err (message : String)
deriving Repr, DecidableEq

/-! ## Port/Conflict resolver (src/app/lama_manager.py) -/

/-- Python `str.strip()` over the character list: drop leading and trailing
whitespace. (Re-implemented on `List Char` so that the kernel can evaluate it.) -/
def strip_chars (cs : List Char) : List Char :=
  ((cs.dropWhile Char.isWhitespace).reverse.dropWhile Char.isWhitespace).reverse

/-- `LamaCleanerManager._is_lama_process_name` (lama_manager.py:182-184):
the conflicting process is "ours" iff its reported executable name,
stripped and lower-cased (`process_name.strip().lower()`), is exactly
`lama-cleaner.exe`. -/
def is_lama_process_name (process_name : String) : Bool :=
  (strip_chars process_name.toList).map Char.toLower == "lama-cleaner.exe".toList

/-- Environment observed by `_handle_port_conflict_if_needed` for one port:
whether the port is free (`_is_port_free`), the owning pid and process name
found via netstat/tasklist (`_detect_port_conflict`; `none` when no LISTENING
pid could be parsed), the installed conflict resolver's answer (`none` when no
resolver is installed or the resolver raised — both leave
`should_terminate = False` in the source), and whether `taskkill` succeeds and
the port then frees within the bounded wait. -/
structure PortEnv where
  port_free : Bool
  owner : Option (Nat × String)
  resolver_accepts : Option Bool
  terminate_succeeds : Bool
  port_frees_after_kill : Bool
deriving Repr, DecidableEq

/-- Outcome of the conflict handler: the pid passed to `_terminate_pid`
(if termination was invoked at all) and the return/raise result. -/
structure ConflictAction where
  terminated_pid : Option Nat
  result : PyResult Unit
deriving Repr, DecidableEq

/-- `LamaCleanerManager._handle_port_conflict_if_needed` (lama_manager.py:280-323).
Free port: return. No identifiable owner: raise. Foreign process name: raise.
Resolver absent/declining/raising: raise. Otherwise terminate the owner's
process tree and wait for the port to free, raising on either failure. -/
def handle_port_conflict_if_needed (env : PortEnv) : ConflictAction :=
  if env.port_free then ⟨none, .ok ()⟩
  else
    match env.owner with
    | none => ⟨none, .err "port already in use"⟩
    | some (pid, name) =>
      if is_lama_process_name name = false then
        ⟨none, .err "port in use by foreign process"⟩
      else
        let should_terminate := env.resolver_accepts.getD false
        if should_terminate = false then
          ⟨none, .err "existing process is still running"⟩
        else if env.terminate_succeeds = false then
          ⟨some pid, .err "failed to terminate existing process"⟩
        else if env.port_frees_after_kill = false then
          ⟨some pid, .err "port still in use after terminating"⟩
        else ⟨some pid, .ok ()⟩

/-! ## Segment data model (src/gui_app/app/models.py and src/app/models.py) -/

/-- Seconds-based segment (`Segment` in src/gui_app/app/models.py), with
rational numbers standing for the Python floats. The `segment_id` field is
an opaque identity tag irrelevant to every claim and is omitted. -/
structure SegmentSec where
  start_sec : ℚ
  end_sec : ℚ
  mask_path : Option String := none
deriving Repr, DecidableEq

/-- `Segment.validate` of the seconds-based model (gui_app/app/models.py:14-18):
raises when `start_sec < 0`, then when `end_sec <= start_sec`. -/
def SegmentSec.validate (s : SegmentSec) : PyResult Unit :=
  if s.start_sec < 0 then .err "Segment start must be >= 0."
  else if s.end_sec ≤ s.start_sec then .err "Segment end must be greater than start."
  else .ok ()

/-- Frame-indexed segment (`Segment` in src/app/models.py). -/
structure SegmentFrame where
  start_frame : Int
  end_frame : Int
  mask_path : Option String := none
deriving Repr, DecidableEq

/-- `Segment.validate` of the frame-indexed model (app/models.py:14-18):
raises when `start_frame < 1`, then when `end_frame < start_frame`. -/
def SegmentFrame.validate (s : SegmentFrame) : PyResult Unit :=
  if s.start_frame < 1 then .err "Segment start frame must be >= 1."
  else if s.end_frame < s.start_frame then .err "Segment end frame must be >= start frame."
  else .ok ()

/-! ## Claims C1 and C7 -/

/-- C1: for every resolved port conflict, `_terminate_pid` is invoked only when
the detected owner's name matches the worker executable's own name
(`lama-cleaner.exe`) and the conflict resolver returned `True`; when the port
is busy and the owner is unidentifiable or foreign, the handler raises at once
without invoking termination. -/
theorem c1_terminate_only_own_process (env : PortEnv) (pid : Nat)
    (hterm : (handle_port_conflict_if_needed env).terminated_pid = some pid) :
    (∃ name, env.owner = some (pid, name) ∧ is_lama_process_name name = true ∧
      env.resolver_accepts = some true) ∧
    (∀ pid' name', env.port_free = false → env.owner = some (pid', name') →
      is_lama_process_name name' = false →
      (handle_port_conflict_if_needed env).terminated_pid = none ∧
      ∃ msg, (handle_port_conflict_if_needed env).result = .err msg) ∧
    (env.port_free = false → env.owner = none →
      (handle_port_conflict_if_needed env).terminated_pid = none ∧
      ∃ msg, (handle_port_conflict_if_needed env).result = .err msg) := by
  obtain ⟨pf, owner, ra, ts, fk⟩ := env
  refine ⟨?_, ?_, ?_⟩
  · cases pf with
    | true => simp [handle_port_conflict_if_needed] at hterm
    | false =>
      cases owner with
      | none => simp [handle_port_conflict_if_needed] at hterm
      | some pn =>
        obtain ⟨p, n⟩ := pn
        by_cases hn : is_lama_process_name n = false
        · simp [handle_port_conflict_if_needed, hn] at hterm
        · rw [Bool.not_eq_false] at hn
          cases ra with
          | none => simp [handle_port_conflict_if_needed, hn] at hterm
          | some b =>
            cases b with
            | false => simp [handle_port_conflict_if_needed, hn] at hterm
            | true =>
              refine ⟨n, ?_, hn, rfl⟩
              simp only [handle_port_conflict_if_needed, hn] at hterm
              cases ts <;> cases fk <;> simp_all
  · intro pid' name' hpf howner hname
    subst hpf
    subst howner
    simp [handle_port_conflict_if_needed, hname]
  · intro hpf howner
    subst hpf
    subst howner
    simp [handle_port_conflict_if_needed]

/-- Witness for C1 at a concrete environment: a busy port owned by our own
`lama-cleaner.exe` with an accepting resolver does invoke termination, and the
theorem's conclusions hold there. -/
theorem c1_witness :
    (∃ name, (PortEnv.mk false (some (7, "lama-cleaner.exe")) (some true) true true).owner
        = some (7, name) ∧ is_lama_process_name name = true ∧
        (PortEnv.mk false (some (7, "lama-cleaner.exe")) (some true) true true).resolver_accepts
        = some true) ∧
    (∀ pid' name',
      (PortEnv.mk false (some (7, "lama-cleaner.exe")) (some true) true true).port_free = false →
      (PortEnv.mk false (some (7, "lama-cleaner.exe")) (some true) true true).owner
        = some (pid', name') →
      is_lama_process_name name' = false →
      (handle_port_conflict_if_needed
        (PortEnv.mk false (some (7, "lama-cleaner.exe")) (some true) true true)).terminated_pid
        = none ∧
      ∃ msg, (handle_port_conflict_if_needed
        (PortEnv.mk false (some (7, "lama-cleaner.exe")) (some true) true true)).result
        = .err msg) ∧
    ((PortEnv.mk false (some (7, "lama-cleaner.exe")) (some true) true true).port_free = false →
      (PortEnv.mk false (some (7, "lama-cleaner.exe")) (some true) true true).owner = none →
      (handle_port_conflict_if_needed
        (PortEnv.mk false (some (7, "lama-cleaner.exe")) (some true) true true)).terminated_pid
        = none ∧
      ∃ msg, (handle_port_conflict_if_needed
        (PortEnv.mk false (some (7, "lama-cleaner.exe")) (some true) true true)).result
        = .err msg) :=
  c1_terminate_only_own_process
    (PortEnv.mk false (some (7, "lama-cleaner.exe")) (some true) true true) 7 (by decide)

/-- C7 counterexample: the seconds-based segment with `start = end = 0`
satisfies the claimed invariant (`end ≥ start` and `start ≥ 0`) yet
`validate` raises, because the code demands strictly `end > start`. -/
theorem c7_counterexample :
    (0 : ℚ) ≤ (0 : ℚ) ∧ (0 : ℚ) ≤ (0 : ℚ) ∧
    SegmentSec.validate ⟨0, 0, none⟩ =
      .err "Segment end must be greater than start." := by
  refine ⟨le_refl _, le_refl _, ?_⟩
  decide

/-- C7 (amended): the frame-indexed `validate` succeeds exactly when
`1 ≤ start_frame` and `start_frame ≤ end_frame` (inclusive, as the claim
states), while the seconds-based `validate` succeeds exactly when
`0 ≤ start_sec` and `start_sec < end_sec` — strict at the upper end, unlike
the claim's `end ≥ start`. -/
theorem c7_validate_characterization (s : SegmentSec) (t : SegmentFrame) :
    (SegmentSec.validate s = .ok () ↔ 0 ≤ s.start_sec ∧ s.start_sec < s.end_sec) ∧
    (SegmentFrame.validate t = .ok () ↔ 1 ≤ t.start_frame ∧ t.start_frame ≤ t.end_frame) := by
  constructor
  · unfold SegmentSec.validate
    split_ifs with h1 h2
    · constructor
      · intro h
        exact absurd h (by simp)
      · intro h
        exact absurd h1 (not_lt.mpr h.1)
    · constructor
      · intro h
        exact absurd h (by simp)
      · intro h
        exact absurd h2 (not_le.mpr h.2)
    · exact ⟨fun _ => ⟨not_lt.mp h1, not_le.mp h2⟩, fun _ => rfl⟩
  · unfold SegmentFrame.validate
    split_ifs with h1 h2
    · constructor
      · intro h
        exact absurd h (by simp)
      · intro h
        exact absurd h1 (not_lt.mpr h.1)
    · constructor
      · intro h
        exact absurd h (by simp)
      · intro h
        exact absurd h2 (not_lt.mpr h.2)
    · exact ⟨fun _ => ⟨not_lt.mp h1, not_lt.mp h2⟩, fun _ => rfl⟩

/-! ## Batch script sharding (src/scripts/batch.py) -/

/-- Loop body of `split_evenly` (batch.py:75-87): with `count` iterations left,
current loop `index` and running slice offset `start`, append
`items[start:end]` where `end = start + base_size + extra` and
`extra = 1 if index < remainder else 0`, then continue from `end`. -/
def split_evenly_go (items : List α) (base_size remainder : Nat) :
    Nat → Nat → Nat → List (List α)
  | 0, _, _ => []
  | count + 1, index, start =>
    let extra := if index < remainder then 1 else 0
    ((items.drop start).take (base_size + extra)) ::
      split_evenly_go items base_size remainder count (index + 1) (start + (base_size + extra))

/-- `split_evenly(items, bucket_count)` (batch.py:75-87): contiguous blocks,
`len(items) // bucket_count` each, the first `len(items) % bucket_count`
blocks one element longer. -/
def split_evenly (items : List α) (bucket_count : Nat) : List (List α) :=
  split_evenly_go items (items.length / bucket_count) (items.length % bucket_count)
    bucket_count 0 0

/-- Total number of elements the loop hands out over `count` iterations
starting at loop index `index`. -/
def split_sizes (base_size remainder : Nat) : Nat → Nat → Nat
  | 0, _ => 0
  | count + 1, index =>
    (base_size + if index < remainder then 1 else 0) + split_sizes base_size remainder count (index + 1)

theorem split_evenly_go_length (items : List α) (b r : Nat) :
    ∀ count index start, (split_evenly_go items b r count index start).length = count := by
  intro count
  induction count with
  | zero => intro index start; rfl
  | succ c ih =>
    intro index start
    simp [split_evenly_go, ih]

theorem split_sizes_closed (b r : Nat) :
    ∀ count index, split_sizes b r count index = count * b + min count (r - index) := by
  intro count
  induction count with
  | zero => intro index; simp [split_sizes]
  | succ c ih =>
    intro index
    rw [split_sizes, ih, Nat.succ_mul]
    by_cases h : index < r
    · simp only [if_pos h]
      omega
    · simp only [if_neg h]
      omega

theorem split_evenly_go_flatten (items : List α) (b r : Nat) :
    ∀ count index start,
      (split_evenly_go items b r count index start).flatten =
        (items.drop start).take (split_sizes b r count index) := by
  intro count
  induction count with
  | zero => intro index start; simp [split_evenly_go, split_sizes]
  | succ c ih =>
    intro index start
    rw [split_evenly_go, split_sizes]
    simp only [List.flatten_cons, ih]
    conv_rhs => rw [List.take_add]
    congr 1
    rw [List.drop_drop]

theorem split_evenly_go_getD (items : List α) (b r : Nat) :
    ∀ j count index start, j < count →
      (split_evenly_go items b r count index start).getD j [] =
        (items.drop (start + split_sizes b r j index)).take
          (b + if index + j < r then 1 else 0) := by
  intro j
  induction j with
  | zero =>
    intro count index start hj
    match count, hj with
    | c + 1, _ =>
      simp [split_evenly_go, split_sizes]
  | succ j ih =>
    intro count index start hj
    match count, hj with
    | c + 1, hj =>
      rw [split_evenly_go]
      show (split_evenly_go items b r c (index + 1) _).getD j [] = _
      rw [ih c (index + 1) _ (by omega), split_sizes]
      have h1 : index + 1 + j = index + (j + 1) := by omega
      have h2 : start + (b + (if index < r then 1 else 0)) +
          split_sizes b r j (index + 1) =
          start + ((b + if index < r then 1 else 0) + split_sizes b r j (index + 1)) := by
        omega
      rw [h1, h2]

theorem split_evenly_chunk_length (items : List α) (n : Nat) (hn : 1 ≤ n) :
    ∀ j, j < n → ((split_evenly items n).getD j []).length =
      items.length / n + (if j < items.length % n then 1 else 0) := by
  intro j hj
  have hrn : items.length % n < n := Nat.mod_lt _ (by omega)
  have htotal : n * (items.length / n) + items.length % n = items.length :=
    Nat.div_add_mod items.length n
  have hmono : (j + 1) * (items.length / n) ≤ n * (items.length / n) :=
    Nat.mul_le_mul_right _ (by omega)
  have hsucc : (j + 1) * (items.length / n) = j * (items.length / n) + items.length / n :=
    Nat.succ_mul j _
  rw [split_evenly, split_evenly_go_getD items _ _ j n 0 0 hj,
    List.length_take, List.length_drop, split_sizes_closed]
  split_ifs with h1 h2 <;> omega

/-- C10: for every list and bucket count `n ≥ 1`, `split_evenly` returns
exactly `n` chunks whose in-order concatenation equals the input, any two
chunk lengths differ by at most one, and every strictly longer chunk precedes
every strictly shorter chunk (contiguous even blocks, not round-robin). -/
theorem c10_split_evenly (items : List α) (n : Nat) (hn : 1 ≤ n) :
    (split_evenly items n).length = n ∧
    (split_evenly items n).flatten = items ∧
    (∀ j k, j < n → k < n →
      ((split_evenly items n).getD j []).length ≤
        ((split_evenly items n).getD k []).length + 1) ∧
    (∀ j k, j < n → k < n →
      ((split_evenly items n).getD k []).length <
        ((split_evenly items n).getD j []).length → j < k) := by
  refine ⟨split_evenly_go_length items _ _ n 0 0, ?_, ?_, ?_⟩
  · rw [split_evenly, split_evenly_go_flatten, split_sizes_closed]
    have hrn : items.length % n < n := Nat.mod_lt _ (by omega)
    have hmin : min n (items.length % n - 0) = items.length % n := by omega
    rw [hmin]
    have htotal : n * (items.length / n) + items.length % n = items.length :=
      Nat.div_add_mod items.length n
    rw [htotal]
    simp
  · intro j k hj hk
    rw [split_evenly_chunk_length items n hn j hj, split_evenly_chunk_length items n hn k hk]
    split_ifs <;> omega
  · intro j k hj hk
    rw [split_evenly_chunk_length items n hn j hj, split_evenly_chunk_length items n hn k hk]
    split_ifs <;> omega

/-- Witness for C10 at `items = [10, 20, 30, 40, 50]`, `n = 3`. -/
theorem c10_witness :
    (split_evenly [10, 20, 30, 40, 50] 3).length = 3 ∧
    (split_evenly [10, 20, 30, 40, 50] 3).flatten = [10, 20, 30, 40, 50] ∧
    (∀ j k, j < 3 → k < 3 →
      ((split_evenly [10, 20, 30, 40, 50] 3).getD j []).length ≤
        ((split_evenly [10, 20, 30, 40, 50] 3).getD k []).length + 1) ∧
    (∀ j k, j < 3 → k < 3 →
      ((split_evenly [10, 20, 30, 40, 50] 3).getD k []).length <
        ((split_evenly [10, 20, 30, 40, 50] 3).getD j []).length → j < k) :=
  c10_split_evenly [10, 20, 30, 40, 50] 3 (by decide)

/-! ## Round-robin sharding and dispatch (src/gui_app/app/pipeline.py) -/

/-- One `assignments[index % len(lama_ports)].append(task)` step
(pipeline.py:254). -/
def bucket_append (buckets : List (List α)) (i : Nat) (x : α) : List (List α) :=
  buckets.set i (buckets.getD i [] ++ [x])

/-- The sharding loop of `_process_masked_tasks` (pipeline.py:253-254), over
the enumerated task list. -/
def assign_go (n : Nat) : List (Nat × α) → List (List α) → List (List α)
  | [], buckets => buckets
  | (i, t) :: rest, buckets => assign_go n rest (bucket_append buckets (i % n) t)

/-- The `assignments` built by `_process_masked_tasks` (pipeline.py:252-254):
`n` empty buckets, task at index `i` appended to bucket `i % n`. -/
def assign_round_robin (tasks : List α) (n : Nat) : List (List α) :=
  assign_go n tasks.enum (List.replicate n [])

theorem bucket_append_length (buckets : List (List α)) (i : Nat) (x : α) :
    (bucket_append buckets i x).length = buckets.length :=
  List.length_set ..

theorem bucket_append_getD_self (buckets : List (List α)) (i : Nat) (x : α)
    (h : i < buckets.length) :
    (bucket_append buckets i x).getD i [] = buckets.getD i [] ++ [x] := by
  rw [bucket_append, List.getD_eq_getElem?_getD, List.getElem?_set_eq_of_lt _ h]
  rfl

theorem bucket_append_getD_ne (buckets : List (List α)) (i j : Nat) (x : α)
    (h : i ≠ j) :
    (bucket_append buckets i x).getD j [] = buckets.getD j [] := by
  rw [bucket_append, List.getD_eq_getElem?_getD, List.getElem?_set_ne h,
    ← List.getD_eq_getElem?_getD]

theorem assign_go_length (n : Nat) :
    ∀ (ts : List (Nat × α)) (buckets : List (List α)),
      (assign_go n ts buckets).length = buckets.length := by
  intro ts
  induction ts with
  | nil => intro buckets; rfl
  | cons p rest ih =>
    intro buckets
    obtain ⟨i, t⟩ := p
    rw [assign_go, ih, bucket_append_length]

theorem assign_go_getD (n : Nat) (hn : 0 < n) :
    ∀ (ts : List (Nat × α)) (buckets : List (List α)), buckets.length = n →
      ∀ j, j < n →
        (assign_go n ts buckets).getD j [] =
          buckets.getD j [] ++ (ts.filter (fun p => p.1 % n == j)).map Prod.snd := by
  intro ts
  induction ts with
  | nil =>
    intro buckets _ j _
    simp [assign_go]
  | cons p rest ih =>
    intro buckets hlen j hj
    obtain ⟨i, t⟩ := p
    rw [assign_go, ih (bucket_append buckets (i % n) t)
      (by rw [bucket_append_length, hlen]) j hj]
    by_cases h : i % n = j
    · rw [h, bucket_append_getD_self buckets j t (by omega)]
      simp [List.filter, h]
    · rw [bucket_append_getD_ne buckets (i % n) j t h]
      simp only [List.filter]
      have : (i % n == j) = false := by simp [h]
      rw [this]

/-- C8: sharding assigns the task at index `i` to the port at position
`i mod (number of ports)`: bucket `j` is exactly the sublist of tasks whose
enumeration index is congruent to `j` modulo the port count, kept in
increasing index order. -/
theorem c8_round_robin_sharding (tasks : List α) (ports : List Nat)
    (htasks : tasks ≠ []) (hports : ports ≠ []) :
    (assign_round_robin tasks ports.length).length = ports.length ∧
    ∀ j, j < ports.length →
      (assign_round_robin tasks ports.length).getD j [] =
        (tasks.enum.filter (fun p => p.1 % ports.length == j)).map Prod.snd := by
  have hn : 0 < ports.length := List.length_pos.mpr hports
  constructor
  · rw [assign_round_robin, assign_go_length, List.length_replicate]
  · intro j hj
    rw [assign_round_robin,
      assign_go_getD ports.length hn tasks.enum (List.replicate ports.length [])
        (List.length_replicate ..) j hj]
    rw [List.getD_eq_getElem?_getD, List.getElem?_replicate]
    simp [hj]

/-- Witness for C8 with five tasks over two ports: bucket 0 gets indices
0, 2, 4 and bucket 1 gets indices 1, 3. -/
theorem c8_witness :
    (assign_round_robin ["a", "b", "c", "d", "e"] [8080, 8081].length).length
        = [8080, 8081].length ∧
    ∀ j, j < [8080, 8081].length →
      (assign_round_robin ["a", "b", "c", "d", "e"] [8080, 8081].length).getD j [] =
        ((["a", "b", "c", "d", "e"].enum.filter
          (fun p => p.1 % [8080, 8081].length == j)).map Prod.snd) :=
  c8_round_robin_sharding ["a", "b", "c", "d", "e"] [8080, 8081]
    (by decide) (by decide)

/-- The per-unit HTTP loop `_worker_process_tasks` (pipeline.py:285-321):
`respond` gives the inference endpoint's status code and body for a task.
The unit walks its assigned tasks in order; a non-200 status raises inside
the unit (abandoning its remaining tasks but nothing outside the unit); a 200
status writes the body to the task's destination. Returns the unit's writes
and its local failure, if any. -/
def worker_process_tasks (respond : α → Nat × String) :
    List α → List (α × String) × Option String
  | [] => ([], none)
  | t :: ts =>
    if (respond t).1 ≠ 200 then
      ([], some ("HTTP " ++ toString (respond t).1 ++ " " ++ (respond t).2))
    else
      let rest := worker_process_tasks respond ts
      ((t, (respond t).2) :: rest.1, rest.2)

/-- `_process_masked_tasks` (pipeline.py:241-283): shard the tasks round-robin
over the ports, run one dispatch unit per shard — `as_completed` waits on every
submitted future and catches each unit's exception individually, so every unit
runs to completion or local failure regardless of its siblings — and collect
the per-unit errors. Returns each unit's writes and the collected error list.
(Units with empty shards are skipped in the source; running them is
indistinguishable since an empty shard yields no writes and no error.) -/
def process_masked_tasks (respond : α → Nat × String) (tasks : List α)
    (ports : List Nat) : List (List (α × String)) × List String :=
  let runs := (assign_round_robin tasks ports.length).map (worker_process_tasks respond)
  (runs.map Prod.fst, runs.filterMap Prod.snd)

/-- The decision after all units finish (pipeline.py:281-283): raise one
aggregate error iff the collected error list is non-empty. -/
def dispatch_outcome (respond : α → Nat × String) (tasks : List α)
    (ports : List Nat) : PyResult Unit :=
  let errors := (process_masked_tasks respond tasks ports).2
  if errors.isEmpty then .ok ()
  else .err ("Masked frame processing failed:\n" ++ String.intercalate "\n" errors)

/-- C5: each dispatch unit's writes are exactly those of running that unit
alone on its own shard (an exception in one unit neither cancels nor perturbs
its siblings); the collected errors are exactly the local failures of all the
units; and the pipeline continues past dispatch iff no unit erred, raising one
aggregate failure iff at least one did. -/
theorem c5_dispatch_error_aggregation (respond : α → Nat × String)
    (tasks : List α) (ports : List Nat) :
    (∀ j, j < ports.length →
      (process_masked_tasks respond tasks ports).1.getD j [] =
        (worker_process_tasks respond
          ((assign_round_robin tasks ports.length).getD j [])).1) ∧
    ((process_masked_tasks respond tasks ports).2 =
      (assign_round_robin tasks ports.length).filterMap
        (fun shard => (worker_process_tasks respond shard).2)) ∧
    (dispatch_outcome respond tasks ports = .ok () ↔
      ∀ shard ∈ assign_round_robin tasks ports.length,
        (worker_process_tasks respond shard).2 = none) ∧
    ((∃ shard ∈ assign_round_robin tasks ports.length,
        (worker_process_tasks respond shard).2 ≠ none) →
      ∃ msg, dispatch_outcome respond tasks ports = .err msg) := by
  have hlen : (assign_round_robin tasks ports.length).length = ports.length := by
    rw [assign_round_robin, assign_go_length, List.length_replicate]
  refine ⟨?_, ?_, ?_, ?_⟩
  · intro j hj
    rw [process_masked_tasks]
    have hj' : j < (assign_round_robin tasks ports.length).length := by omega
    rw [List.getD_eq_getElem?_getD, List.getElem?_map, List.getElem?_map,
      List.getElem?_eq_getElem hj']
    simp [List.getD_eq_getElem?_getD, List.getElem?_eq_getElem hj']
  · rw [process_masked_tasks]
    simp [List.filterMap_map, Function.comp_def]
  · rw [dispatch_outcome]
    constructor
    · intro h
      by_cases he : (process_masked_tasks respond tasks ports).2.isEmpty
      · intro shard hshard
        have : (process_masked_tasks respond tasks ports).2 = [] :=
          List.isEmpty_iff.mp he
        rw [process_masked_tasks] at this
        simp only [List.filterMap_map, List.filterMap_eq_nil_iff] at this
        exact this shard hshard
      · rw [if_neg he] at h
        exact absurd h (by simp)
    · intro h
      have : (process_masked_tasks respond tasks ports).2 = [] := by
        rw [process_masked_tasks]
        simp only [List.filterMap_map, List.filterMap_eq_nil_iff]
        exact fun shard hshard => h shard hshard
      rw [this]
      rfl
  · intro ⟨shard, hshard, herr⟩
    rw [dispatch_outcome]
    split_ifs with he
    · exfalso
      have : (process_masked_tasks respond tasks ports).2 = [] :=
        List.isEmpty_iff.mp he
      rw [process_masked_tasks] at this
      simp only [List.filterMap_map, List.filterMap_eq_nil_iff] at this
      exact herr (this shard hshard)
    · exact ⟨_, rfl⟩

/-- Witness for C5: two ports, three tasks, the endpoint failing exactly on
task 2 (which lands in unit 1's shard): unit 0's writes survive, the error
list names exactly unit 1's failure, and the dispatch raises. -/
theorem c5_witness :
    (∀ j, j < [8080, 8081].length →
      (process_masked_tasks (fun t => if t == 2 then (500, "boom") else (200, "img"))
        [1, 2, 3] [8080, 8081]).1.getD j [] =
        (worker_process_tasks (fun t => if t == 2 then (500, "boom") else (200, "img"))
          ((assign_round_robin [1, 2, 3] [8080, 8081].length).getD j [])).1) ∧
    ((process_masked_tasks (fun t => if t == 2 then (500, "boom") else (200, "img"))
        [1, 2, 3] [8080, 8081]).2 =
      (assign_round_robin [1, 2, 3] [8080, 8081].length).filterMap
        (fun shard => (worker_process_tasks
          (fun t => if t == 2 then (500, "boom") else (200, "img")) shard).2)) ∧
    ((dispatch_outcome (fun t => if t == 2 then (500, "boom") else (200, "img"))
        [1, 2, 3] [8080, 8081]) = .ok () ↔
      ∀ shard ∈ assign_round_robin [1, 2, 3] [8080, 8081].length,
        (worker_process_tasks
          (fun t => if t == 2 then (500, "boom") else (200, "img")) shard).2 = none) ∧
    ((∃ shard ∈ assign_round_robin [1, 2, 3] [8080, 8081].length,
        (worker_process_tasks
          (fun t => if t == 2 then (500, "boom") else (200, "img")) shard).2 ≠ none) →
      ∃ msg, (dispatch_outcome (fun t => if t == 2 then (500, "boom") else (200, "img"))
        [1, 2, 3] [8080, 8081]) = .err msg) :=
  c5_dispatch_error_aggregation (fun t => if t == 2 then (500, "boom") else (200, "img"))
    [1, 2, 3] [8080, 8081]

/-! ## Progress reporting (src/gui_app/app/pipeline.py:482-492)

The done counter is only ever touched under `self._progress_lock`, so any
concurrent run of `_update_progress_one` / `_update_progress_bulk` calls is
serialized into some sequence of operations; the model below quantifies over
every such sequence. -/

/-- One serialized progress operation: `_update_progress_one` or
`_update_progress_bulk(amount)`. -/
inductive ProgressOp where
  | one
  | bulk (amount : Int)
deriving Repr, DecidableEq

/-- Effect of one operation on the done counter (pipeline.py:482-492): `one`
increments by 1 and reports; `bulk amount` returns early when `amount <= 0`,
otherwise adds `amount` and reports. The reported value, if any, is the
counter value passed to the progress callback. -/
def apply_progress : ProgressOp → Int → Int × Option Int
  | .one, done => (done + 1, some (done + 1))
  | .bulk amount, done =>
    if amount ≤ 0 then (done, none) else (done + amount, some (done + amount))

/-- The sequence of `done` values handed to the progress callback by a
serialized run of progress operations starting from counter value `done`. -/
def progress_reports : List ProgressOp → Int → List Int
  | [], _ => []
  | op :: ops, done =>
    match apply_progress op done with
    | (done', some v) => v :: progress_reports ops done'
    | (done', none) => progress_reports ops done'

theorem apply_progress_state_mono (op : ProgressOp) (done : Int) :
    done ≤ (apply_progress op done).1 := by
  cases op with
  | one => simp [apply_progress]
  | bulk amount =>
    rw [apply_progress]
    split_ifs with h
    · exact le_refl _
    · simp only
      omega

theorem progress_reports_one (ops : List ProgressOp) (done : Int) :
    progress_reports (.one :: ops) done = (done + 1) :: progress_reports ops (done + 1) :=
  rfl

theorem progress_reports_bulk_nonpos (ops : List ProgressOp) (done amount : Int)
    (h : amount ≤ 0) :
    progress_reports (.bulk amount :: ops) done = progress_reports ops done := by
  rw [progress_reports, apply_progress, if_pos h]

theorem progress_reports_bulk_pos (ops : List ProgressOp) (done amount : Int)
    (h : ¬ amount ≤ 0) :
    progress_reports (.bulk amount :: ops) done =
      (done + amount) :: progress_reports ops (done + amount) := by
  rw [progress_reports, apply_progress, if_neg h]

theorem progress_reports_chain (ops : List ProgressOp) :
    ∀ done : Int, List.Chain' (· ≤ ·) (done :: progress_reports ops done) := by
  induction ops with
  | nil => intro done; simp [progress_reports]
  | cons op ops ih =>
    intro done
    cases op with
    | one =>
      rw [progress_reports_one]
      exact List.Chain'.cons (by omega) (ih (done + 1))
    | bulk amount =>
      by_cases h : amount ≤ 0
      · rw [progress_reports_bulk_nonpos ops done amount h]
        exact ih done
      · rw [progress_reports_bulk_pos ops done amount h]
        exact List.Chain'.cons (by omega) (ih (done + amount))

/-- C9: the run's callback sequence starts with the initial `(0, total)` report
(pipeline.py:104) and every later reported `done` value comes from a positive,
lock-serialized increment of the counter, so the sequence of reported values is
monotonically non-decreasing, and no operation ever decreases the counter. -/
theorem c9_progress_monotone (ops : List ProgressOp) (op : ProgressOp)
    (done v : Int) (hrep : (apply_progress op done).2 = some v) :
    List.Chain' (· ≤ ·) (0 :: progress_reports ops 0) ∧
    (∀ o d, d ≤ (apply_progress o d).1) ∧
    done < v ∧ v = (apply_progress op done).1 := by
  refine ⟨progress_reports_chain ops 0, apply_progress_state_mono, ?_⟩
  cases op with
  | one =>
    simp only [apply_progress, Option.some_inj] at hrep
    simp only [apply_progress]
    omega
  | bulk amount =>
    rw [apply_progress] at hrep
    by_cases h : amount ≤ 0
    · rw [if_pos h] at hrep
      exact absurd hrep (by simp)
    · rw [if_neg h] at hrep
      simp only [Option.some_inj] at hrep
      rw [apply_progress, if_neg h]
      exact ⟨by omega, hrep.symm⟩

/-- Witness for C9: the trace `one, bulk 3, bulk (-2), one` from 0 reports
`1, 4, 5` — non-decreasing, with the `bulk (-2)` call reporting nothing. -/
theorem c9_witness :
    List.Chain' (· ≤ ·)
      (0 :: progress_reports [.one, .bulk 3, .bulk (-2), .one] 0) ∧
    (∀ o d, d ≤ (apply_progress o d).1) ∧
    (5 : Int) < 6 ∧ (6 : Int) = (apply_progress .one 5).1 :=
  c9_progress_monotone [.one, .bulk 3, .bulk (-2), .one] .one 5 6 (by decide)

/-! ## Frame classification (src/gui_app/app/pipeline.py:193-239) -/

/-- Two seconds-based segments do not overlap, with half-open interval
semantics. -/
def seg_disjoint (a b : SegmentSec) : Prop :=
  a.end_sec ≤ b.start_sec ∨ b.end_sec ≤ a.start_sec

theorem seg_disjoint_symm {a b : SegmentSec} (h : seg_disjoint a b) :
    seg_disjoint b a :=
  h.symm

/-- `sorted(segments, key=lambda seg: seg.start_sec)` (pipeline.py:215), a
stable sort by start time. -/
def segment_sort (segments : List SegmentSec) : List SegmentSec :=
  List.insertionSort (fun a b => a.start_sec ≤ b.start_sec) segments

/-- `_mask_for_time` (pipeline.py:234-239): the `mask_path` of the first
segment whose half-open interval `[start_sec, end_sec)` contains `time_sec`;
`none` both when no segment matches and when the first matching segment
carries no mask (the source returns the matching segment's possibly-None
`mask_path` either way). -/
def mask_for_time (time_sec : ℚ) : List SegmentSec → Option String
  | [] => none
  | seg :: rest =>
    if seg.start_sec ≤ time_sec ∧ time_sec < seg.end_sec then seg.mask_path
    else mask_for_time time_sec rest

/-- The frame loop of `_prepare_tasks` (pipeline.py:217-232) over frames
`(index, content)` whose filename stem is the numeric `index` (the source
raises on any non-numeric stem, so every completed run processes numeric
frames only): the frame's time offset is `(index - 1) / fps`; a frame whose
time resolves to a mask becomes a masked task, every other frame is copied
to the output directory at once. Both outputs keep the input order. -/
def prepare_tasks_go (fps : ℚ) (sorted_segments : List SegmentSec) :
    List (Nat × α) → List ((Nat × α) × String) × List (Nat × α)
  | [] => ([], [])
  | f :: fs =>
    let rest := prepare_tasks_go fps sorted_segments fs
    match mask_for_time (((f.1 : ℚ) - 1) / fps) sorted_segments with
    | none => (rest.1, f :: rest.2)
    | some mask => ((f, mask) :: rest.1, rest.2)

/-- `_prepare_tasks` (pipeline.py:205-232): sort the segments by start time,
then classify every frame. -/
def prepare_tasks (fps : ℚ) (segments : List SegmentSec)
    (frame_files : List (Nat × α)) :
    List ((Nat × α) × String) × List (Nat × α) :=
  prepare_tasks_go fps (segment_sort segments) frame_files

/-- `_collect_frames` (pipeline.py:193-203) on numerically named frame files
`(index, content)`: sorting by the sort key `(0, int(stem))` is plain numeric
order (the lexical fallback key only arises for non-numeric stems, which
`_prepare_tasks` then rejects). -/
def collect_frames (frame_files : List (Nat × α)) : List (Nat × α) :=
  List.insertionSort (fun a b => a.1 ≤ b.1) frame_files

theorem mask_for_time_some_iff (t : ℚ) (l : List SegmentSec) (m : String)
    (hnov : List.Pairwise seg_disjoint l) :
    mask_for_time t l = some m ↔
      ∃ seg ∈ l, seg.start_sec ≤ t ∧ t < seg.end_sec ∧ seg.mask_path = some m := by
  induction l with
  | nil => simp [mask_for_time]
  | cons seg rest ih =>
    rw [mask_for_time]
    obtain ⟨hhead, htail⟩ := List.pairwise_cons.mp hnov
    split_ifs with hc
    · constructor
      · intro h
        exact ⟨seg, List.mem_cons_self .., hc.1, hc.2, h⟩
      · intro ⟨seg', hmem, h1, h2, hm⟩
        rcases List.mem_cons.mp hmem with heq | hmem'
        · exact heq ▸ hm
        · exfalso
          obtain ⟨hc1, hc2⟩ := hc
          rcases hhead seg' hmem' with hd | hd
          · exact absurd (lt_of_lt_of_le (lt_of_lt_of_le hc2 hd) h1) (lt_irrefl t)
          · exact absurd (lt_of_lt_of_le (lt_of_lt_of_le h2 hd) hc1) (lt_irrefl t)
    · rw [ih htail]
      constructor
      · intro ⟨seg', hmem, h⟩
        exact ⟨seg', List.mem_cons_of_mem _ hmem, h⟩
      · intro ⟨seg', hmem, h1, h2, hm⟩
        rcases List.mem_cons.mp hmem with heq | hmem'
        · exact absurd (heq ▸ ⟨h1, h2⟩) hc
        · exact ⟨seg', hmem', h1, h2, hm⟩

theorem mask_for_time_none_iff (t : ℚ) (l : List SegmentSec)
    (hnov : List.Pairwise seg_disjoint l) :
    mask_for_time t l = none ↔
      ∀ seg ∈ l, seg.start_sec ≤ t → t < seg.end_sec → seg.mask_path = none := by
  induction l with
  | nil => simp [mask_for_time]
  | cons seg rest ih =>
    rw [mask_for_time]
    obtain ⟨hhead, htail⟩ := List.pairwise_cons.mp hnov
    split_ifs with hc
    · constructor
      · intro h seg' hmem h1 h2
        rcases List.mem_cons.mp hmem with heq | hmem'
        · rw [heq]
          exact h
        · exfalso
          obtain ⟨hc1, hc2⟩ := hc
          rcases hhead seg' hmem' with hd | hd
          · exact absurd (lt_of_lt_of_le (lt_of_lt_of_le hc2 hd) h1) (lt_irrefl t)
          · exact absurd (lt_of_lt_of_le (lt_of_lt_of_le h2 hd) hc1) (lt_irrefl t)
      · intro h
        exact h seg (List.mem_cons_self ..) hc.1 hc.2
    · rw [ih htail]
      constructor
      · intro h seg' hmem h1 h2
        rcases List.mem_cons.mp hmem with heq | hmem'
        · exact absurd (heq ▸ ⟨h1, h2⟩) hc
        · exact h seg' hmem' h1 h2
      · intro h seg' hmem h1 h2
        exact h seg' (List.mem_cons_of_mem _ hmem) h1 h2

theorem prepare_tasks_go_mem_tasks (fps : ℚ) (sorted : List SegmentSec)
    (fs : List (Nat × α)) (F : Nat × α) (m : String) :
    (F, m) ∈ (prepare_tasks_go fps sorted fs).1 ↔
      F ∈ fs ∧ mask_for_time (((F.1 : ℚ) - 1) / fps) sorted = some m := by
  induction fs with
  | nil => simp [prepare_tasks_go]
  | cons f fs ih =>
    rw [prepare_tasks_go]
    rcases hmask : mask_for_time (((f.1 : ℚ) - 1) / fps) sorted with _ | mm
    · simp only [ih, List.mem_cons]
      constructor
      · intro ⟨hmem, hm⟩
        exact ⟨Or.inr hmem, hm⟩
      · intro ⟨hmem, hm⟩
        rcases hmem with heq | hmem'
        · rw [heq] at hm
          rw [hm] at hmask
          exact absurd hmask (by simp)
        · exact ⟨hmem', hm⟩
    · simp only [List.mem_cons, ih]
      constructor
      · intro h
        rcases h with heq | ⟨hmem, hm⟩
        · have h1 : F = f := congrArg Prod.fst heq
          have h2 : m = mm := congrArg Prod.snd heq
          rw [h1, h2]
          exact ⟨Or.inl rfl, hmask⟩
        · exact ⟨Or.inr hmem, hm⟩
      · intro ⟨hmem, hm⟩
        rcases hmem with heq | hmem'
        · left
          rw [heq] at hm
          rw [hm] at hmask
          rw [heq, Option.some_inj.mp hmask]
        · exact Or.inr ⟨hmem', hm⟩

theorem prepare_tasks_go_mem_copied (fps : ℚ) (sorted : List SegmentSec)
    (fs : List (Nat × α)) (F : Nat × α) :
    F ∈ (prepare_tasks_go fps sorted fs).2 ↔
      F ∈ fs ∧ mask_for_time (((F.1 : ℚ) - 1) / fps) sorted = none := by
  induction fs with
  | nil => simp [prepare_tasks_go]
  | cons f fs ih =>
    rw [prepare_tasks_go]
    rcases hmask : mask_for_time (((f.1 : ℚ) - 1) / fps) sorted with _ | mm
    · simp only [List.mem_cons, ih]
      constructor
      · intro h
        rcases h with heq | ⟨hmem, hm⟩
        · rw [heq]
          exact ⟨Or.inl rfl, hmask⟩
        · exact ⟨Or.inr hmem, hm⟩
      · intro ⟨hmem, hm⟩
        rcases hmem with heq | hmem'
        · exact Or.inl heq
        · exact Or.inr ⟨hmem', hm⟩
    · simp only [ih]
      constructor
      · intro ⟨hmem, hm⟩
        exact ⟨List.mem_cons_of_mem _ hmem, hm⟩
      · intro ⟨hmem, hm⟩
        rcases List.mem_cons.mp hmem with heq | hmem'
        · rw [heq] at hm
          rw [hm] at hmask
          exact absurd hmask (by simp)
        · exact ⟨hmem', hm⟩

theorem segment_sort_perm (segments : List SegmentSec) :
    (segment_sort segments).Perm segments :=
  List.perm_insertionSort _ segments

theorem segment_sort_pairwise (segments : List SegmentSec)
    (hnov : List.Pairwise seg_disjoint segments) :
    List.Pairwise seg_disjoint (segment_sort segments) :=
  (List.Perm.pairwise_iff (fun {_ _} h => seg_disjoint_symm h)
    (segment_sort_perm segments)).mpr hnov

/-- C2: with pairwise non-overlapping segments, a frame `(index, content)`
becomes a masked `FrameTask` with mask `m` iff some segment carrying mask `m`
contains its time offset `(index - 1) / fps` under half-open membership
`start <= t < end`; it is copied to the output directory as pass-through iff
no mask-carrying segment contains its offset; and no frame is classified as
both. -/
theorem c2_frame_classification (fps : ℚ) (segments : List SegmentSec)
    (frame_files : List (Nat × α)) (F : Nat × α) (m : String)
    (hnov : List.Pairwise seg_disjoint segments) :
    ((F, m) ∈ (prepare_tasks fps segments frame_files).1 ↔
      F ∈ frame_files ∧ ∃ seg ∈ segments,
        seg.start_sec ≤ ((F.1 : ℚ) - 1) / fps ∧
        ((F.1 : ℚ) - 1) / fps < seg.end_sec ∧ seg.mask_path = some m) ∧
    (F ∈ (prepare_tasks fps segments frame_files).2 ↔
      F ∈ frame_files ∧ ∀ seg ∈ segments,
        seg.start_sec ≤ ((F.1 : ℚ) - 1) / fps →
        ((F.1 : ℚ) - 1) / fps < seg.end_sec → seg.mask_path = none) ∧
    ¬ ((∃ m', (F, m') ∈ (prepare_tasks fps segments frame_files).1) ∧
        F ∈ (prepare_tasks fps segments frame_files).2) := by
  have hsorted := segment_sort_pairwise segments hnov
  refine ⟨?_, ?_, ?_⟩
  · rw [prepare_tasks, prepare_tasks_go_mem_tasks,
      mask_for_time_some_iff _ _ _ hsorted]
    constructor
    · intro ⟨hmem, seg, hsmem, h⟩
      exact ⟨hmem, seg, (segment_sort_perm segments).mem_iff.mp hsmem, h⟩
    · intro ⟨hmem, seg, hsmem, h⟩
      exact ⟨hmem, seg, (segment_sort_perm segments).mem_iff.mpr hsmem, h⟩
  · rw [prepare_tasks, prepare_tasks_go_mem_copied,
      mask_for_time_none_iff _ _ hsorted]
    constructor
    · intro ⟨hmem, h⟩
      exact ⟨hmem, fun seg hsmem =>
        h seg ((segment_sort_perm segments).mem_iff.mpr hsmem)⟩
    · intro ⟨hmem, h⟩
      exact ⟨hmem, fun seg hsmem =>
        h seg ((segment_sort_perm segments).mem_iff.mp hsmem)⟩
  · intro ⟨⟨m', htask⟩, hcopy⟩
    rw [prepare_tasks, prepare_tasks_go_mem_tasks] at htask
    rw [prepare_tasks, prepare_tasks_go_mem_copied] at hcopy
    rw [htask.2] at hcopy
    exact absurd hcopy.2 (by simp)

/-- Witness for C2: one segment `[1, 2)` with mask `"m.png"`, `fps = 1`,
frames 1, 2, 3; frame 2 (time offset 1) is the single masked task and the
others pass through. -/
theorem c2_witness :
    (((2, 20), "m.png") ∈
        (prepare_tasks 1 [⟨1, 2, some "m.png"⟩] [(1, 10), (2, 20), (3, 30)]).1 ↔
      (2, 20) ∈ [(1, 10), (2, 20), (3, 30)] ∧ ∃ seg ∈ [(⟨1, 2, some "m.png"⟩ : SegmentSec)],
        seg.start_sec ≤ (((2 : Nat) : ℚ) - 1) / 1 ∧
        (((2 : Nat) : ℚ) - 1) / 1 < seg.end_sec ∧ seg.mask_path = some "m.png") ∧
    ((2, 20) ∈ (prepare_tasks 1 [⟨1, 2, some "m.png"⟩] [(1, 10), (2, 20), (3, 30)]).2 ↔
      (2, 20) ∈ [(1, 10), (2, 20), (3, 30)] ∧
        ∀ seg ∈ [(⟨1, 2, some "m.png"⟩ : SegmentSec)],
        seg.start_sec ≤ (((2 : Nat) : ℚ) - 1) / 1 →
        (((2 : Nat) : ℚ) - 1) / 1 < seg.end_sec → seg.mask_path = none) ∧
    ¬ ((∃ m', ((2, 20), m') ∈
          (prepare_tasks 1 [⟨1, 2, some "m.png"⟩] [(1, 10), (2, 20), (3, 30)]).1) ∧
        (2, 20) ∈ (prepare_tasks 1 [⟨1, 2, some "m.png"⟩] [(1, 10), (2, 20), (3, 30)]).2) :=
  c2_frame_classification 1 [⟨1, 2, some "m.png"⟩] [(1, 10), (2, 20), (3, 30)]
    (2, 20) "m.png" (by simp)

theorem prepare_tasks_go_no_segments (fps : ℚ) (fs : List (Nat × α)) :
    prepare_tasks_go fps [] fs = ([], fs) := by
  induction fs with
  | nil => rfl
  | cons f fs ih =>
    rw [prepare_tasks_go, ih]
    rfl

instance : IsTotal (Nat × α) (fun a b => a.1 ≤ b.1) :=
  ⟨fun a b => Nat.le_total a.1 b.1⟩

instance : IsTrans (Nat × α) (fun a b => a.1 ≤ b.1) :=
  ⟨fun _ _ _ h1 h2 => le_trans h1 h2⟩

/-- C6: with an empty segment list, classification creates zero masked tasks
and copies every collected frame — the output directory receives exactly the
input frames (same numeric names, same bytes), in numeric order, and nothing
is lost or duplicated. -/
theorem c6_empty_segments_roundtrip (fps : ℚ) (frame_files : List (Nat × α))
    (hfps : 0 < fps) :
    (prepare_tasks fps [] (collect_frames frame_files)).1 = [] ∧
    (prepare_tasks fps [] (collect_frames frame_files)).2 = collect_frames frame_files ∧
    List.Pairwise (fun a b => a.1 ≤ b.1) (collect_frames frame_files) ∧
    (collect_frames frame_files).Perm frame_files := by
  refine ⟨?_, ?_, ?_, List.perm_insertionSort _ frame_files⟩
  · rw [prepare_tasks, segment_sort, List.insertionSort, prepare_tasks_go_no_segments]
  · rw [prepare_tasks, segment_sort, List.insertionSort, prepare_tasks_go_no_segments]
  · exact List.sorted_insertionSort (fun a b => a.1 ≤ b.1) frame_files

/-- Witness for C6 at `fps = 1` and frames named 2, 1, 3. -/
theorem c6_witness :
    (prepare_tasks 1 [] (collect_frames [(2, 20), (1, 10), (3, 30)])).1 = [] ∧
    (prepare_tasks 1 [] (collect_frames [(2, 20), (1, 10), (3, 30)])).2 =
      collect_frames [(2, 20), (1, 10), (3, 30)] ∧
    List.Pairwise (fun a b => a.1 ≤ b.1) (collect_frames [(2, 20), (1, 10), (3, 30)]) ∧
    (collect_frames [(2, 20), (1, 10), (3, 30)]).Perm [(2, 20), (1, 10), (3, 30)] :=
  c6_empty_segments_roundtrip 1 [(2, 20), (1, 10), (3, 30)] (by decide)

/-! ## Readiness detection (src/app/lama_manager.py:415-446)

`_wait_for_port` is modelled on a discrete poll clock: step `t` is the `t`-th
iteration of the `while time.time() - start <= timeout_sec` loop, and `iters`
is the number of iterations the timeout allows. `alive t` is
`process.poll() is None` at step `t`, `port_open t` is `_is_port_open(port)`
at step `t`, and `log t` is the content of the instance's log file (append
mode, read whole) at step `t`. -/

/-- The ready-banner markers of `_is_ready_log_emitted`
(lama_manager.py:423-427). -/
def ready_markers : List String :=
  ["Press CTRL+C to quit", "Running on http://", "Uvicorn running on"]

/-- `needle` is a prefix of `haystack` (character lists). -/
def starts_with : List Char → List Char → Bool
  | [], _ => true
  | _ :: _, [] => false
  | n :: ns, h :: hs => n == h && starts_with ns hs

/-- Python's `needle in haystack` substring test over character lists. -/
def occurs_in (needle : List Char) : List Char → Bool
  | [] => starts_with needle []
  | h :: hs => starts_with needle (h :: hs) || occurs_in needle hs

/-- `_is_ready_log_emitted` (lama_manager.py:415-428): `none` models a missing
or unreadable log file; otherwise true iff any known marker occurs in the
text. -/
def is_ready_log_emitted (log_text : Option String) : Bool :=
  match log_text with
  | none => false
  | some text => ready_markers.any fun marker => occurs_in marker.toList text.toList

/-- The polling loop of `_wait_for_port` (lama_manager.py:437-443): at each
step, first return `false` if the process has exited, then return `true` if
the port accepts connections, else sleep and continue; `none` when the
timeout elapses with no early exit. -/
def wait_for_port_loop (alive port_open : Nat → Bool) : Nat → Nat → Option Bool
  | 0, _ => none
  | fuel + 1, t =>
    if alive t = false then some false
    else if port_open t then some true
    else wait_for_port_loop alive port_open fuel (t + 1)

/-- `_wait_for_port` (lama_manager.py:430-446): run the polling loop for the
whole window; only after the timeout elapses without an early exit is the
log checked — the instance is then reported started iff the process is still
alive and a ready marker is in the log. -/
def wait_for_port (alive port_open : Nat → Bool) (log : Nat → Option String)
    (iters : Nat) : Bool :=
  match wait_for_port_loop alive port_open iters 0 with
  | some r => r
  | none => alive iters && is_ready_log_emitted (log iters)

/-- C4 counterexample: the ready banner is in the log from step 0 while the
process is alive, well before the 3-iteration window ends, yet because the
process exits at step 1 the loop returns `false` — the marker is never
consulted and the instance is not reported started, refuting "reported
started" and, with it, "readiness never requires the timeout to elapse when
either signal is present". -/
theorem c4_counterexample :
    wait_for_port (fun t => t == 0) (fun _ => false)
      (fun _ => some "INFO: Uvicorn running on http://127.0.0.1:8080") 3 = false ∧
    (fun t : Nat => t == 0) 0 = true ∧
    is_ready_log_emitted
      (some "INFO: Uvicorn running on http://127.0.0.1:8080") = true ∧
    0 < 3 := by
  refine ⟨?_, rfl, ?_, by decide⟩
  · rfl
  · decide

theorem wait_for_port_loop_some_true_iff (alive port_open : Nat → Bool) :
    ∀ fuel t, wait_for_port_loop alive port_open fuel t = some true ↔
      ∃ k, k < fuel ∧ port_open (t + k) = true ∧
        ∀ j, j ≤ k → alive (t + j) = true := by
  intro fuel
  induction fuel with
  | zero =>
    intro t
    simp [wait_for_port_loop]
  | succ fuel ih =>
    intro t
    rw [wait_for_port_loop]
    by_cases ha : alive t = false
    · rw [if_pos ha]
      constructor
      · intro h
        exact absurd h (by simp)
      · intro ⟨k, _, _, hal⟩
        have := hal 0 (Nat.zero_le k)
        rw [Nat.add_zero] at this
        rw [this] at ha
        exact absurd ha (by simp)
    · rw [if_neg ha]
      rw [Bool.not_eq_false] at ha
      by_cases hp : port_open t
      · rw [if_pos hp]
        constructor
        · intro _
          exact ⟨0, Nat.succ_pos fuel, by simpa using hp, fun j hj => by
            interval_cases j
            simpa using ha⟩
        · intro _
          rfl
      · rw [if_neg hp, ih (t + 1)]
        constructor
        · intro ⟨k, hk, hpo, hal⟩
          refine ⟨k + 1, by omega, by rw [show t + (k + 1) = t + 1 + k by omega]; exact hpo,
            fun j hj => ?_⟩
          cases j with
          | zero => simpa using ha
          | succ j =>
            rw [show t + (j + 1) = t + 1 + j by omega]
            exact hal j (by omega)
        · intro ⟨k, hk, hpo, hal⟩
          cases k with
          | zero =>
            rw [Nat.add_zero] at hpo
            exact absurd hpo hp
          | succ k =>
            refine ⟨k, by omega, by rw [show t + 1 + k = t + (k + 1) by omega]; exact hpo,
              fun j hj => ?_⟩
            rw [show t + 1 + j = t + (j + 1) by omega]
            exact hal (j + 1) (by omega)

theorem wait_for_port_loop_none_iff (alive port_open : Nat → Bool) :
    ∀ fuel t, wait_for_port_loop alive port_open fuel t = none ↔
      ∀ k, k < fuel → alive (t + k) = true ∧ port_open (t + k) = false := by
  intro fuel
  induction fuel with
  | zero =>
    intro t
    simp [wait_for_port_loop]
  | succ fuel ih =>
    intro t
    rw [wait_for_port_loop]
    by_cases ha : alive t = false
    · rw [if_pos ha]
      constructor
      · intro h
        exact absurd h (by simp)
      · intro h
        have := (h 0 (Nat.succ_pos fuel)).1
        rw [Nat.add_zero] at this
        rw [this] at ha
        exact absurd ha (by simp)
    · rw [if_neg ha]
      rw [Bool.not_eq_false] at ha
      by_cases hp : port_open t
      · rw [if_pos hp]
        constructor
        · intro h
          exact absurd h (by simp)
        · intro h
          have := (h 0 (Nat.succ_pos fuel)).2
          rw [Nat.add_zero] at this
          rw [this] at hp
          exact absurd hp (by simp)
      · rw [if_neg hp, ih (t + 1)]
        constructor
        · intro h k hk
          cases k with
          | zero =>
            rw [Nat.add_zero]
            exact ⟨ha, by simpa using hp⟩
          | succ k =>
            rw [show t + (k + 1) = t + 1 + k by omega]
            exact h k (by omega)
        · intro h k hk
          rw [show t + 1 + k = t + (k + 1) by omega]
          exact h (k + 1) (by omega)

/-- C4 (amended): during the polling window only process exit and an open
port are checked; the ready-log marker is consulted exactly once, after the
timeout elapses, and only when no early exit happened. The start is reported
iff either the port opened at some step of the window with the process alive
up to that step, or the whole window passed with the process alive and the
port closed throughout and, at the final check, the process is still alive
with a ready marker in its log. A marker appearing early neither shortens the
wait nor guarantees a started report. -/
theorem c4_readiness_characterization (alive port_open : Nat → Bool)
    (log : Nat → Option String) (iters : Nat) :
    wait_for_port alive port_open log iters = true ↔
      ((∃ k, k < iters ∧ port_open k = true ∧ ∀ j, j ≤ k → alive j = true) ∨
       ((∀ k, k < iters → alive k = true ∧ port_open k = false) ∧
        alive iters = true ∧ is_ready_log_emitted (log iters) = true)) := by
  rw [wait_for_port]
  rcases hloop : wait_for_port_loop alive port_open iters 0 with _ | r
  · rw [wait_for_port_loop_none_iff] at hloop
    simp only [Bool.and_eq_true]
    constructor
    · intro h
      exact Or.inr ⟨fun k hk => by simpa using hloop k hk, h.1, h.2⟩
    · intro h
      rcases h with ⟨k, hk, hpo, hal⟩ | ⟨_, h1, h2⟩
      · exact absurd hpo (by simpa using (hloop k hk).2)
      · exact ⟨h1, h2⟩
  · cases r with
    | false =>
      constructor
      · intro h
        exact absurd h (by simp)
      · intro h
        rcases h with ⟨k, hk, hpo, hal⟩ | ⟨hall, h1, h2⟩
        · have : wait_for_port_loop alive port_open iters 0 = some true :=
            (wait_for_port_loop_some_true_iff alive port_open iters 0).mpr
              ⟨k, hk, by simpa using hpo, fun j hj => by simpa using hal j hj⟩
          rw [hloop] at this
          exact absurd this (by simp)
        · have : wait_for_port_loop alive port_open iters 0 = none :=
            (wait_for_port_loop_none_iff alive port_open iters 0).mpr
              (fun k hk => by simpa using hall k hk)
          rw [hloop] at this
          exact absurd this (by simp)
    | true =>
      rw [wait_for_port_loop_some_true_iff] at hloop
      simp only [Nat.zero_add] at hloop
      obtain ⟨k, hk, hpo, hal⟩ := hloop
      exact ⟨fun _ => Or.inl ⟨k, hk, hpo, hal⟩, fun _ => rfl⟩

/-- Witness for the amended C4: the port opens at step 1 of a 5-step window
with the process alive throughout, and the start is reported. -/
theorem c4_witness :
    wait_for_port (fun _ => true) (fun t => t == 1) (fun _ => none) 5 = true ↔
      ((∃ k, k < 5 ∧ (fun t : Nat => t == 1) k = true ∧
          ∀ j, j ≤ k → (fun _ : Nat => true) j = true) ∨
       ((∀ k, k < 5 → (fun _ : Nat => true) k = true ∧ (fun t : Nat => t == 1) k = false) ∧
        (fun _ : Nat => true) 5 = true ∧
        is_ready_log_emitted ((fun _ : Nat => none) 5) = true)) :=
  c4_readiness_characterization (fun _ => true) (fun t => t == 1) (fun _ => none) 5

/-! ## Instance scaling (src/app/lama_manager.py:325-479)

The registry `self._instances` in start order, each record carrying its port
and whether its process is still running (`process.poll() is None`). The
model is a closed world in which the only possible listeners on the managed
ports are the manager's own live workers (external listeners are C1's
concern), so a conflicting owner always reports the name
`lama-cleaner.exe`, termination succeeds and the port frees in time. -/

/-- `AppConfig.BASE_PORT` (gui_app/app/config.py:5). -/
def BASE_PORT : Nat := 8080

/-- `AppConfig.MAX_INSTANCE_COUNT` (gui_app/app/config.py:7). -/
def MAX_INSTANCE_COUNT : Nat := 8

/-- One `ManagedInstance` record: port and process liveness. -/
structure MInst where
  port : Nat
  alive : Bool
deriving Repr, DecidableEq

/-- `_remove_dead_instances` (lama_manager.py:463-470): keep the records
whose process is still running. -/
def remove_dead_instances (s : List MInst) : List MInst :=
  s.filter (·.alive)

/-- `_is_port_open` in the closed world: some live managed worker owns the
port. -/
def port_open_managed (s : List MInst) (port : Nat) : Bool :=
  s.any fun i => i.alive && i.port == port

/-- `taskkill /PID .. /T /F` on the owner of `port`: the registry record
keeps its slot (the source does not remove it) but its process is dead. -/
def kill_port (s : List MInst) (port : Nat) : List MInst :=
  s.map fun i => if i.alive && i.port == port then { i with alive := false } else i

/-- `_start_instance` (lama_manager.py:357-399) in the closed world: a busy
port is owned by one of our live `lama-cleaner.exe` workers, so
`_handle_port_conflict_if_needed` asks the resolver — acceptance terminates
the owner and proceeds, refusal raises. A successful start appends a live
record; start readiness itself succeeds. -/
def start_instance (resolver_accepts : Bool) (s : List MInst) (port : Nat) :
    PyResult (List MInst) :=
  if port_open_managed s port then
    if resolver_accepts then .ok (kill_port s port ++ [⟨port, true⟩])
    else .err "Cannot start lama-cleaner: port in use by existing instance"
  else .ok (s ++ [⟨port, true⟩])

/-- `_scale_up` (lama_manager.py:347-350): start `delta` instances, each at
port `BASE_PORT + len(self._instances)`. -/
def scale_up (resolver_accepts : Bool) : List MInst → Nat → PyResult (List MInst)
  | s, 0 => .ok s
  | s, delta + 1 =>
    match start_instance resolver_accepts s (BASE_PORT + s.length) with
    | .ok s' => scale_up resolver_accepts s' delta
    | .err e => .err e

/-- `_scale_down` (lama_manager.py:352-355): pop and stop the most recently
started instance, `delta` times. -/
def scale_down : List MInst → Nat → List MInst
  | s, 0 => s
  | s, delta + 1 => scale_down s.dropLast delta

/-- `set_instance_count` (lama_manager.py:325-341): range-check the target,
prune dead instances, then no-op / scale up / scale down. -/
def set_instance_count (resolver_accepts : Bool) (s : List MInst)
    (target_count : Nat) : PyResult (List MInst) :=
  if target_count < 1 then .err "Instance count must be >= 1."
  else if target_count > MAX_INSTANCE_COUNT then .err "Instance count must be <= 8."
  else
    let pruned := remove_dead_instances s
    if pruned.length = target_count then .ok pruned
    else if pruned.length < target_count then
      scale_up resolver_accepts pruned (target_count - pruned.length)
    else .ok (scale_down pruned (pruned.length - target_count))

/-- C3 counterexample: from the reachable registry
`[8080 live, 8081 dead, 8082 live]` (three instances started, the middle one
exited), `SetCount(3)` with a valid target either yields three records on the
non-strictly-increasing ports `[8080, 8082, 8082]` (accepting resolver: the
new start collides with our own live 8082 worker, kills it and reuses the
port) or raises (declining resolver) — refuting "exactly N instances whose
ports are strictly increasing" for every valid N. -/
theorem c3_counterexample :
    set_instance_count true [⟨8080, true⟩, ⟨8081, false⟩, ⟨8082, true⟩] 3 =
      .ok [⟨8080, true⟩, ⟨8082, false⟩, ⟨8082, true⟩] ∧
    ([⟨8080, true⟩, ⟨8082, false⟩, ⟨8082, true⟩] : List MInst).map MInst.port =
      [8080, 8082, 8082] ∧
    ¬ List.Chain' (· < ·) [8080, 8082, 8082] ∧
    1 ≤ 3 ∧ 3 ≤ MAX_INSTANCE_COUNT ∧
    set_instance_count false [⟨8080, true⟩, ⟨8081, false⟩, ⟨8082, true⟩] 3 =
      .err "Cannot start lama-cleaner: port in use by existing instance" := by
  refine ⟨by decide, by decide, by simp, by decide, by decide, by decide⟩

theorem remove_dead_alive (s : List MInst) :
    ∀ i ∈ remove_dead_instances s, i.alive = true :=
  fun i hi => (List.mem_filter.mp hi).2

theorem scale_down_eq_take :
    ∀ (delta : Nat) (s : List MInst), scale_down s delta = s.take (s.length - delta) := by
  intro delta
  induction delta with
  | zero =>
    intro s
    rw [scale_down, Nat.sub_zero, List.take_length]
  | succ d ih =>
    intro s
    rw [scale_down, ih, List.dropLast_eq_take, List.length_take, List.take_take]
    congr 1
    omega

theorem scale_up_ok (ra : Bool) :
    ∀ (delta : Nat) (s : List MInst),
      s.map MInst.port = (List.range s.length).map (fun i => BASE_PORT + i) →
      (∀ i ∈ s, i.alive = true) →
      ∃ s', scale_up ra s delta = .ok s' ∧
        s'.map MInst.port =
          (List.range (s.length + delta)).map (fun i => BASE_PORT + i) ∧
        (∀ i ∈ s', i.alive = true) := by
  intro delta
  induction delta with
  | zero =>
    intro s hmap halive
    exact ⟨s, rfl, by simpa using hmap, halive⟩
  | succ d ih =>
    intro s hmap halive
    have hfree : port_open_managed s (BASE_PORT + s.length) = false := by
      rw [port_open_managed, List.any_eq_false]
      intro i hi
      have hmem : i.port ∈ (List.range s.length).map (fun j => BASE_PORT + j) := by
        rw [← hmap]
        exact List.mem_map_of_mem MInst.port hi
      obtain ⟨j, hj, hval⟩ := List.mem_map.mp hmem
      have hjlt : j < s.length := List.mem_range.mp hj
      have hne : i.port ≠ BASE_PORT + s.length := by omega
      simp [hne]
    have hstep : start_instance ra s (BASE_PORT + s.length) =
        .ok (s ++ [MInst.mk (BASE_PORT + s.length) true]) := by
      rw [start_instance, if_neg (by simp [hfree])]
    have hmap' : (s ++ [MInst.mk (BASE_PORT + s.length) true]).map MInst.port =
        (List.range (s ++ [MInst.mk (BASE_PORT + s.length) true]).length).map
          (fun i => BASE_PORT + i) := by
      rw [List.map_append, hmap, List.length_append]
      simp [List.range_succ]
    have halive' : ∀ i ∈ s ++ [MInst.mk (BASE_PORT + s.length) true],
        i.alive = true := by
      intro i hi
      rcases List.mem_append.mp hi with h | h
      · exact halive i h
      · simp at h
        rw [h]
    obtain ⟨s', hrun, hmap'', halive''⟩ :=
      ih (s ++ [MInst.mk (BASE_PORT + s.length) true]) hmap' halive'
    refine ⟨s', ?_, ?_, halive''⟩
    · rw [scale_up, hstep]
      exact hrun
    · rw [hmap'']
      congr 2
      simp
      omega

theorem chain_lt_range_map (base n : Nat) :
    List.Chain' (· < ·) ((List.range n).map (fun i => base + i)) := by
  have hp : ((List.range n).map (fun i => base + i)).Pairwise (· < ·) := by
    refine List.Pairwise.map _ ?_ (List.pairwise_lt_range n)
    intro a b hab
    omega
  exact hp.chain'

theorem set_instance_count_out_of_range (ra : Bool) (s : List MInst) (n : Nat)
    (h : n < 1 ∨ MAX_INSTANCE_COUNT < n) :
    ∃ e, set_instance_count ra s n = .err e := by
  rw [set_instance_count]
  rcases h with h | h
  · rw [if_pos h]
    exact ⟨_, rfl⟩
  · rw [if_neg (by omega), if_pos h]
    exact ⟨_, rfl⟩

/-- C3 (amended): when the pruned registry's live workers sit on exactly the
consecutive ports `BASE_PORT .. BASE_PORT + k - 1` in start order — true of
every registry reached from empty without an instance dying in the middle —
`SetCount(N)` for every valid `N ∈ [1, MAX]` succeeds with exactly `N` live
records on strictly increasing (consecutive) ports; it prunes dead records
first, is a no-op when the live count already equals `N`, keeps only the `N`
earliest-started instances when scaling down (stopping the most recent
first), and raises for `N < 1` or `N > MAX`. Without that reachability
restriction the strict-increase part fails (see the counterexample). -/
theorem c3_set_count_scaling (ra : Bool) (s : List MInst) (target : Nat)
    (hports : (remove_dead_instances s).map MInst.port =
      (List.range (remove_dead_instances s).length).map (fun i => BASE_PORT + i))
    (h1 : 1 ≤ target) (h2 : target ≤ MAX_INSTANCE_COUNT) :
    (∃ s', set_instance_count ra s target = .ok s' ∧
      s'.length = target ∧
      s'.map MInst.port = (List.range target).map (fun i => BASE_PORT + i) ∧
      (∀ i ∈ s', i.alive = true) ∧
      List.Chain' (· < ·) (s'.map MInst.port) ∧
      ((remove_dead_instances s).length = target → s' = remove_dead_instances s) ∧
      (target < (remove_dead_instances s).length →
        s' = (remove_dead_instances s).take target)) ∧
    (∀ n, n < 1 ∨ MAX_INSTANCE_COUNT < n →
      ∃ e, set_instance_count ra s n = .err e) := by
  refine ⟨?_, fun n hn => set_instance_count_out_of_range ra s n hn⟩
  have hlen_of_map : ∀ s' : List MInst,
      s'.map MInst.port = (List.range target).map (fun i => BASE_PORT + i) →
      s'.length = target := by
    intro s' hmap
    have := congrArg List.length hmap
    simpa using this
  rw [set_instance_count, if_neg (by omega), if_neg (by omega)]
  rcases Nat.lt_trichotomy (remove_dead_instances s).length target with hlt | heq | hgt
  · rw [if_neg (by omega), if_pos hlt]
    obtain ⟨s', hrun, hmap, halive⟩ :=
      scale_up_ok ra (target - (remove_dead_instances s).length)
        (remove_dead_instances s) hports (remove_dead_alive s)
    rw [show (remove_dead_instances s).length +
      (target - (remove_dead_instances s).length) = target by omega] at hmap
    refine ⟨s', hrun, hlen_of_map s' hmap, hmap, halive, ?_, ?_, ?_⟩
    · rw [hmap]
      exact chain_lt_range_map BASE_PORT target
    · intro h
      omega
    · intro h
      omega
  · rw [if_pos heq]
    refine ⟨remove_dead_instances s, rfl, heq, by rw [hports, heq], remove_dead_alive s,
      ?_, fun _ => rfl, fun h => by omega⟩
    rw [hports, heq]
    exact chain_lt_range_map BASE_PORT target
  · rw [if_neg (by omega), if_neg (by omega)]
    have htake : scale_down (remove_dead_instances s)
        ((remove_dead_instances s).length - target) =
        (remove_dead_instances s).take target := by
      rw [scale_down_eq_take]
      congr 1
      omega
    have hmap : ((remove_dead_instances s).take target).map MInst.port =
        (List.range target).map (fun i => BASE_PORT + i) := by
      rw [List.map_take, hports, ← List.map_take, List.take_range,
        show min target (remove_dead_instances s).length = target by omega]
    refine ⟨(remove_dead_instances s).take target, by rw [htake], hlen_of_map _ hmap,
      hmap, ?_, ?_, ?_, fun _ => rfl⟩
    · intro i hi
      exact remove_dead_alive s i (List.take_subset _ _ hi)
    · rw [hmap]
      exact chain_lt_range_map BASE_PORT target
    · intro h
      omega

/-- Witness for C3: registry `[8080 live, 8081 live, 8082 dead]`, target 1 —
the dead record is pruned and the most recent live instance (8081) is
stopped, leaving the single instance on port 8080. -/
theorem c3_witness :
    (∃ s', set_instance_count true [⟨8080, true⟩, ⟨8081, true⟩, ⟨8082, false⟩] 1 =
        .ok s' ∧
      s'.length = 1 ∧
      s'.map MInst.port = (List.range 1).map (fun i => BASE_PORT + i) ∧
      (∀ i ∈ s', i.alive = true) ∧
      List.Chain' (· < ·) (s'.map MInst.port) ∧
      ((remove_dead_instances [⟨8080, true⟩, ⟨8081, true⟩, ⟨8082, false⟩]).length = 1 →
        s' = remove_dead_instances [⟨8080, true⟩, ⟨8081, true⟩, ⟨8082, false⟩]) ∧
      (1 < (remove_dead_instances [⟨8080, true⟩, ⟨8081, true⟩, ⟨8082, false⟩]).length →
        s' = (remove_dead_instances [⟨8080, true⟩, ⟨8081, true⟩, ⟨8082, false⟩]).take 1)) ∧
    (∀ n, n < 1 ∨ MAX_INSTANCE_COUNT < n →
      ∃ e, set_instance_count true [⟨8080, true⟩, ⟨8081, true⟩, ⟨8082, false⟩] n =
        .err e) :=
  c3_set_count_scaling true [⟨8080, true⟩, ⟨8081, true⟩, ⟨8082, false⟩] 1
    (by decide) (by decide) (by decide)

end VWR
